import Mathlib

/-!
Shallow embedding of the gist-manager core (`gist_manager/core.py`):
the update-payload reconciler `_prepare_update_payload`, the surrounding
`update_gist` no-op check, the identifier normalizer `_extract_gist_id`
with its validator `_is_valid_gist_id`, and the batch deleter
`delete_gists_batch`.

Python dictionaries are embedded as association lists in insertion
order: assignment to an existing key overwrites in place, assignment to
a fresh key appends, and lookup returns the first (hence, for genuine
dictionaries, the unique) binding.  A gist snapshot maps each filename
to the optional value of its `content` field (`none` when the record
has no such field, which the code reads back as `""` via `.get`).
-/

namespace Gistly

/-- A remote snapshot's file map: filename to optional `content` field. -/
abbrev Snapshot := List (String × Option String)

/-- A desired local file map: filename to content. -/
abbrev FileSet := List (String × String)

/-- Python dictionary lookup: the first binding of the key, if any. -/
def lookupKey (k : String) : List (String × α) → Option α
  | [] => none
  | p :: ps => if p.1 = k then some p.2 else lookupKey k ps

/-- The keys of an association list, in order. -/
def keys (d : List (String × α)) : List String := d.map Prod.fst

/-- Python dictionary assignment `d[k] = v`: overwrite the binding in
place when the key is present, append a new binding otherwise. -/
def insertKey (k : String) (v : α) (d : List (String × α)) : List (String × α) :=
  if d.any (fun p => p.1 = k) then
    d.map (fun p => if p.1 = k then (k, v) else p)
  else
    d ++ [(k, v)]

/-- Loop 1 of `_prepare_update_payload` (core.py lines 250-261): stage
each intent file as an add when absent from the snapshot, as a modify
when present with different content (the snapshot's missing `content`
field reads as `""`), and skip it when the content is identical. -/
def stageNewFiles (currentFiles : Snapshot) (newFiles : FileSet)
    (acc : Snapshot) : Snapshot :=
  newFiles.foldl (fun fp kv =>
    match lookupKey kv.1 currentFiles with
    | some r => if r.getD "" = kv.2 then fp else insertKey kv.1 (some kv.2) fp
    | none => insertKey kv.1 (some kv.2) fp) acc

/-- Loop 2 of `_prepare_update_payload` (core.py lines 263-267): stage a
tombstone (`None`) for every explicitly removed filename that is
present in the snapshot. -/
def stageRemovals (currentFiles : Snapshot) (filesToRemove : List String)
    (acc : Snapshot) : Snapshot :=
  filesToRemove.foldl (fun fp fn =>
    if (lookupKey fn currentFiles).isSome then insertKey fn none fp else fp) acc

/-- Loop 3 of `_prepare_update_payload` (core.py lines 269-273): in sync
mode, stage a tombstone for every snapshot filename that is neither in
the intent's file map nor already staged. -/
def stageSyncRemovals (currentFiles : Snapshot) (newFiles : FileSet)
    (acc : Snapshot) : Snapshot :=
  currentFiles.foldl (fun fp q =>
    if (lookupKey q.1 newFiles).isNone && (lookupKey q.1 fp).isNone then
      insertKey q.1 none fp
    else fp) acc

/-- The PATCH payload: an optional description override and the staged
file map, where `some c` stages content `c` and `none` is a tombstone.
The Python payload dictionary carries a `description` key exactly when
a description was provided and a `files` key exactly when the staged
map is non-empty. -/
structure UpdatePayload where
  description : Option String
  files : Snapshot
  deriving Repr, DecidableEq

/-- `_prepare_update_payload` (core.py lines 221-279). -/
def prepareUpdatePayload (currentFiles : Snapshot) (newFiles : FileSet)
    (filesToRemove : List String) (description : Option String)
    (syncMode : Bool) : UpdatePayload :=
  let fp1 := stageNewFiles currentFiles newFiles []
  let fp2 := stageRemovals currentFiles filesToRemove fp1
  let fp3 := if syncMode && !newFiles.isEmpty then
      stageSyncRemovals currentFiles newFiles fp2
    else fp2
  { description := description, files := fp3 }

/-- `if not payload` in `update_gist`: the payload dictionary is empty
exactly when no description was provided and nothing was staged. -/
def payloadIsEmpty (p : UpdatePayload) : Bool :=
  p.description.isNone && p.files.isEmpty

/-- The payload-deciding part of `update_gist` (core.py lines 298-311):
reconcile with `sync_mode` left at its default `False`, and reject an
empty payload instead of sending it. -/
def updateGistPayload (currentFiles : Snapshot) (files : FileSet)
    (description : Option String) (filesToRemove : List String) :
    Except String UpdatePayload :=
  let payload := prepareUpdatePayload currentFiles files filesToRemove description false
  if payloadIsEmpty payload then
    Except.error "No changes detected. Nothing to update."
  else
    Except.ok payload

/-- Python `str.strip()`: drop leading and trailing whitespace. -/
def pyStrip (l : List Char) : List Char :=
  ((l.dropWhile Char.isWhitespace).reverse.dropWhile Char.isWhitespace).reverse

/-- Python `str.isalnum()` (restricted to the ASCII alphanumerics the
gist IDs use): non-empty and all alphanumeric. -/
def pyIsAlnum (l : List Char) : Bool :=
  !l.isEmpty && l.all Char.isAlphanum

/-- Python `str.lower()`. -/
def pyLower (l : List Char) : List Char := l.map Char.toLower

/-- Python substring containment `needle in hay`. -/
def containsSub (hay nd : List Char) : Bool :=
  match hay with
  | [] => nd.isEmpty
  | _ :: t => nd.isPrefixOf hay || containsSub t nd

/-- `_is_valid_gist_id` (core.py lines 564-600): length in [8,40], no
space, dot or slash, only alphanumerics once hyphens are removed, at
most 4 hyphens, and not in the placeholder denylist. -/
def isValidGistId (s : String) : Bool :=
  let cs := s.data
  if cs.length = 0 ∨ cs.length < 8 then false
  else if cs.length < 8 ∨ 40 < cs.length then false
  else if (' ' ∈ cs) ∨ ('.' ∈ cs) ∨ ('/' ∈ cs) then false
  else if pyIsAlnum (cs.filter (fun c => c ≠ '-')) = false then false
  else if 4 < cs.countP (fun c => c = '-') then false
  else if pyLower cs ∈ ["invalid-gist-id".data, "not-a-url".data,
      "test-gist".data, "example-gist".data] then false
  else true

/-- The effective `_extract_gist_id` (core.py lines 511-562; the second
definition in the class, which overrides the one at line 204): empty
input fails; a non-`http` string is validated as a bare ID; an `http`
string containing `gist.github.com` has its fragment stripped and its
last (or, before a trailing slash, second-to-last) slash-separated
segment returned provided it is non-empty, does not start with
`gist.github.com` and has no dot; every other `http` string fails. -/
def extractGistId (input : String) : Except String String :=
  if input.data.isEmpty ∨ (pyStrip input.data).isEmpty then
    Except.error "Invalid gist ID: cannot be empty"
  else
    let g := pyStrip input.data
    if "http".data.isPrefixOf g = false then
      if isValidGistId (String.mk g) = false then
        Except.error ("Invalid gist ID format: " ++ String.mk g)
      else Except.ok (String.mk g)
    else if containsSub g "gist.github.com".data then
      let g2 := if g.any (fun c => c = '#') then (g.splitOn '#').headD [] else g
      let parts := g2.splitOn '/'
      if 4 ≤ parts.length then
        let extracted :=
          if (parts.getLastD []).isEmpty = false then parts.getLastD []
          else if 5 ≤ parts.length then parts.getD (parts.length - 2) [] else []
        if extracted.isEmpty = false ∧
            "gist.github.com".data.isPrefixOf extracted = false ∧
            '.' ∉ extracted then
          Except.ok (String.mk extracted)
        else Except.error ("Unable to extract gist ID from: " ++ input)
      else Except.error ("Unable to extract gist ID from: " ++ input)
    else Except.error ("Unable to extract gist ID from: " ++ input)

/-- The summary block of a batch-delete result. -/
structure BatchSummary where
  total : Nat
  deleted : Nat
  failed : Nat
  deriving Repr, DecidableEq

/-- The result dictionary of `delete_gists_batch`: `deleted` collects
`(gist_id, message)` pairs of successful deletions, `failed` collects
`(gist_id, error)` pairs of failed ones. -/
structure BatchResults where
  success : Bool
  deleted : List (String × String)
  failed : List (String × String)
  summary : BatchSummary
  deriving Repr, DecidableEq

/-- `delete_gists_batch` (core.py lines 470-509), with the per-id
`delete_gist` call abstracted as `deleteOne`, which returns the clean
gist id and success message, or the caught exception's message. -/
def deleteGistsBatch (deleteOne : String → Except String (String × String))
    (gistIds : List String) : BatchResults :=
  let init : BatchResults :=
    { success := false, deleted := [], failed := [],
      summary := { total := gistIds.length, deleted := 0, failed := 0 } }
  let r := gistIds.foldl (fun res gid =>
    match deleteOne gid with
    | Except.ok pr =>
      { res with deleted := res.deleted ++ [pr],
                 summary := { res.summary with deleted := res.summary.deleted + 1 } }
    | Except.error e =>
      { res with failed := res.failed ++ [(gid, e)],
                 summary := { res.summary with failed := res.summary.failed + 1 } }) init
  { r with success := decide (r.summary.failed = 0) }

/-- Modelled from the spec: the remote API applying an update payload
to a snapshot, which is not part of this repository's sources.  Per the
spec's glossary and §3, staged contents are written (for existing and
for new filenames) and tombstoned filenames are deleted; untouched
snapshot files are kept. -/
def applySnapshot (cur : Snapshot) (fp : Snapshot) : Snapshot :=
  (cur.filterMap (fun q =>
    match lookupKey q.1 fp with
    | some none => none
    | some (some c) => some (q.1, some c)
    | none => some q)) ++
  (fp.filterMap (fun q =>
    match q.2, lookupKey q.1 cur with
    | some c, none => some (q.1, some c)
    | _, _ => none))

/-! ### Association-list (Python dict) lemmas -/

theorem lookupKey_eq_none_iff {α : Type} (k : String) (d : List (String × α)) :
    lookupKey k d = none ↔ k ∉ keys d := by
  induction d with
  | nil => simp [lookupKey, keys]
  | cons p ps ih =>
    by_cases h : p.1 = k
    · simp [lookupKey, keys, h]
    · simp only [lookupKey, if_neg h, keys, List.map_cons, List.mem_cons, ih, keys]
      constructor
      · rintro hn (rfl | hm)
        · exact h rfl
        · exact hn hm
      · intro hn
        exact fun hm => hn (Or.inr hm)

theorem lookupKey_isSome_iff {α : Type} (k : String) (d : List (String × α)) :
    (lookupKey k d).isSome = true ↔ k ∈ keys d := by
  rw [Option.isSome_iff_ne_none]
  constructor
  · intro h
    by_contra hm
    exact h ((lookupKey_eq_none_iff k d).mpr hm)
  · intro hm hn
    exact ((lookupKey_eq_none_iff k d).mp hn) hm

theorem any_key_eq {α : Type} (k : String) (d : List (String × α)) :
    d.any (fun p => p.1 = k) = (lookupKey k d).isSome := by
  induction d with
  | nil => simp [lookupKey]
  | cons p ps ih =>
    by_cases h : p.1 = k <;> simp [lookupKey, h, ih]

theorem lookupKey_append_of_some {α : Type} {k : String} {a : List (String × α)}
    (b : List (String × α)) {v : α} (h : lookupKey k a = some v) :
    lookupKey k (a ++ b) = some v := by
  induction a with
  | nil => simp [lookupKey] at h
  | cons p ps ih =>
    by_cases hp : p.1 = k
    · simp only [lookupKey, if_pos hp] at h
      simp [lookupKey, hp, h]
    · simp only [lookupKey, if_neg hp] at h
      simpa [lookupKey, hp] using ih h

theorem lookupKey_append_of_none {α : Type} {k : String} {a : List (String × α)}
    (b : List (String × α)) (h : lookupKey k a = none) :
    lookupKey k (a ++ b) = lookupKey k b := by
  induction a with
  | nil => simp
  | cons p ps ih =>
    by_cases hp : p.1 = k
    · simp [lookupKey, if_pos hp] at h
    · simp only [lookupKey, if_neg hp] at h
      simpa [lookupKey, hp] using ih h

theorem lookupKey_map_replace {α : Type} (k k' : String) (v : α) (d : List (String × α)) :
    lookupKey k (d.map (fun p => if p.1 = k' then (k', v) else p)) =
      if k' = k then (lookupKey k d).map (fun _ => v) else lookupKey k d := by
  induction d with
  | nil => simp [lookupKey]
  | cons p ps ih =>
    by_cases hp : p.1 = k'
    · by_cases hk : k' = k
      · subst hk
        simp [lookupKey, hp]
      · have hpk : ¬ p.1 = k := fun h => hk (hp ▸ h)
        simp [lookupKey, hp, hk, hpk, ih]
    · by_cases hpk : p.1 = k
      · have hk : ¬ k' = k := fun h => hp (by rw [hpk, h])
        have hk2 : ¬ k = k' := fun h => hk h.symm
        simp [lookupKey, hp, hpk, hk, hk2]
      · simp [lookupKey, hp, hpk, ih]

theorem lookupKey_insertKey {α : Type} (k k' : String) (v : α) (d : List (String × α)) :
    lookupKey k (insertKey k' v d) = if k' = k then some v else lookupKey k d := by
  unfold insertKey
  by_cases hany : d.any (fun p => p.1 = k') = true
  · rw [if_pos hany, lookupKey_map_replace]
    by_cases hk : k' = k
    · subst hk
      rw [any_key_eq] at hany
      rcases Option.isSome_iff_exists.mp hany with ⟨w, hw⟩
      simp [hw]
    · simp [hk]
  · rw [if_neg hany]
    have hnone : lookupKey k' d = none := by
      cases h : lookupKey k' d with
      | none => rfl
      | some w => rw [Bool.not_eq_true, any_key_eq, h] at hany; simp at hany
    by_cases hk : k' = k
    · subst hk
      rw [lookupKey_append_of_none _ hnone]
      simp [lookupKey]
    · by_cases hv : lookupKey k d = none
      · rw [lookupKey_append_of_none _ hv, hv]
        simp [lookupKey, hk]
      · rcases Option.ne_none_iff_exists'.mp hv with ⟨w, hw⟩
        rw [lookupKey_append_of_some _ hw, hw, if_neg hk]

theorem keys_map_replace {α : Type} (k : String) (v : α) (d : List (String × α)) :
    keys (d.map (fun p => if p.1 = k then (k, v) else p)) = keys d := by
  induction d with
  | nil => rfl
  | cons p ps ih =>
    by_cases hp : p.1 = k
    · simp only [keys, List.map_cons] at ih ⊢
      rw [if_pos hp, ih, hp]
    · simp only [keys, List.map_cons] at ih ⊢
      rw [if_neg hp, ih]

theorem keys_insertKey_nodup {α : Type} (k : String) (v : α) (d : List (String × α))
    (h : (keys d).Nodup) : (keys (insertKey k v d)).Nodup := by
  unfold insertKey
  by_cases hany : d.any (fun p => p.1 = k) = true
  · rw [if_pos hany, keys_map_replace]
    exact h
  · rw [if_neg hany]
    have hnone : lookupKey k d = none := by
      cases hc : lookupKey k d with
      | none => rfl
      | some w => rw [Bool.not_eq_true, any_key_eq, hc] at hany; simp at hany
    have hmem : k ∉ keys d := (lookupKey_eq_none_iff k d).mp hnone
    simp only [keys, List.map_append, List.map_cons, List.map_nil]
    refine List.Nodup.append h (List.nodup_singleton k) ?_
    intro a ha hb
    rw [List.mem_singleton] at hb
    subst hb
    exact hmem ha

theorem lookupKey_insertKey_ne {α : Type} {k k' : String} (v : α) (d : List (String × α))
    (h : ¬ k' = k) : lookupKey k (insertKey k' v d) = lookupKey k d := by
  rw [lookupKey_insertKey, if_neg h]

theorem lookupKey_insertKey_self {α : Type} (k : String) (v : α) (d : List (String × α)) :
    lookupKey k (insertKey k v d) = some v := by
  rw [lookupKey_insertKey, if_pos rfl]

/-! ### Staging-loop lemmas -/

theorem stageNewFiles_step_preserve (cur : Snapshot) (kv : String × String)
    (acc : Snapshot) (k : String) (hk : ¬ kv.1 = k) :
    lookupKey k (match lookupKey kv.1 cur with
      | some r => if r.getD "" = kv.2 then acc else insertKey kv.1 (some kv.2) acc
      | none => insertKey kv.1 (some kv.2) acc) = lookupKey k acc := by
  cases hc : lookupKey kv.1 cur with
  | some r =>
    by_cases he : r.getD "" = kv.2
    · simp [he]
    · simp [he, lookupKey_insertKey_ne _ _ hk]
  | none => simp [lookupKey_insertKey_ne _ _ hk]

theorem stageNewFiles_lookup_none (cur : Snapshot) (nf : FileSet) (acc : Snapshot)
    (k : String) (h : lookupKey k nf = none) :
    lookupKey k (stageNewFiles cur nf acc) = lookupKey k acc := by
  induction nf generalizing acc with
  | nil => rfl
  | cons kv rest ih =>
    have hk : ¬ kv.1 = k := by
      intro he
      simp [lookupKey, he] at h
    simp only [lookupKey, if_neg hk] at h
    rw [show stageNewFiles cur (kv :: rest) acc = stageNewFiles cur rest
        (match lookupKey kv.1 cur with
         | some r => if r.getD "" = kv.2 then acc else insertKey kv.1 (some kv.2) acc
         | none => insertKey kv.1 (some kv.2) acc) from rfl,
      ih _ h, stageNewFiles_step_preserve cur kv acc k hk]

theorem stageNewFiles_lookup_some (cur : Snapshot) (nf : FileSet) (acc : Snapshot)
    (k : String) (c : String) (hnd : (keys nf).Nodup) (h : lookupKey k nf = some c) :
    lookupKey k (stageNewFiles cur nf acc) =
      if (lookupKey k cur).map (fun r => r.getD "") = some c then lookupKey k acc
      else some (some c) := by
  induction nf generalizing acc with
  | nil => simp [lookupKey] at h
  | cons kv rest ih =>
    simp only [keys, List.map_cons, List.nodup_cons] at hnd
    by_cases hk : kv.1 = k
    · subst hk
      have h2 : kv.2 = c := by simpa [lookupKey] using h
      subst h2
      have hrest : lookupKey kv.1 rest = none := by
        rw [lookupKey_eq_none_iff]
        exact hnd.1
      rw [show stageNewFiles cur (kv :: rest) acc = stageNewFiles cur rest
          (match lookupKey kv.1 cur with
           | some r => if r.getD "" = kv.2 then acc else insertKey kv.1 (some kv.2) acc
           | none => insertKey kv.1 (some kv.2) acc) from rfl,
        stageNewFiles_lookup_none cur rest _ _ hrest]
      cases hc : lookupKey kv.1 cur with
      | some r =>
        by_cases he : r.getD "" = kv.2
        · simp [hc, he]
        · simp [hc, he, lookupKey_insertKey_self]
      | none => simp [hc, lookupKey_insertKey_self]
    · simp only [lookupKey, if_neg hk] at h
      rw [show stageNewFiles cur (kv :: rest) acc = stageNewFiles cur rest
          (match lookupKey kv.1 cur with
           | some r => if r.getD "" = kv.2 then acc else insertKey kv.1 (some kv.2) acc
           | none => insertKey kv.1 (some kv.2) acc) from rfl,
        ih _ hnd.2 h, stageNewFiles_step_preserve cur kv acc k hk]

theorem stageRemovals_step_preserve (cur : Snapshot) (fn : String) (acc : Snapshot)
    (k : String) (hk : ¬ fn = k) :
    lookupKey k (if (lookupKey fn cur).isSome then insertKey fn none acc else acc) =
      lookupKey k acc := by
  by_cases hs : (lookupKey fn cur).isSome = true
  · simp [hs, lookupKey_insertKey_ne _ _ hk]
  · simp [hs]

theorem stageRemovals_lookup_notMem (cur : Snapshot) (ftr : List String)
    (acc : Snapshot) (k : String) (h : k ∉ ftr) :
    lookupKey k (stageRemovals cur ftr acc) = lookupKey k acc := by
  induction ftr generalizing acc with
  | nil => rfl
  | cons fn rest ih =>
    have hk : ¬ fn = k := fun he => h (he ▸ List.mem_cons_self fn rest)
    have hr : k ∉ rest := fun hm => h (List.mem_cons_of_mem fn hm)
    rw [show stageRemovals cur (fn :: rest) acc = stageRemovals cur rest
        (if (lookupKey fn cur).isSome then insertKey fn none acc else acc) from rfl,
      ih _ hr, stageRemovals_step_preserve cur fn acc k hk]

theorem stageRemovals_lookup_mem (cur : Snapshot) (ftr : List String)
    (acc : Snapshot) (k : String) (h : k ∈ ftr) :
    lookupKey k (stageRemovals cur ftr acc) =
      if (lookupKey k cur).isSome then some none else lookupKey k acc := by
  induction ftr generalizing acc with
  | nil => cases h
  | cons fn rest ih =>
    rw [show stageRemovals cur (fn :: rest) acc = stageRemovals cur rest
        (if (lookupKey fn cur).isSome then insertKey fn none acc else acc) from rfl]
    by_cases hr : k ∈ rest
    · rw [ih _ hr]
      by_cases hs : (lookupKey k cur).isSome = true
      · simp [hs]
      · simp only [if_neg hs]
        by_cases hfn : fn = k
        · subst hfn
          simp [hs]
        · exact stageRemovals_step_preserve cur fn acc k hfn
    · have hfn : fn = k := by
        rcases List.mem_cons.mp h with h1 | h2
        · exact h1.symm
        · exact absurd h2 hr
      subst hfn
      rw [stageRemovals_lookup_notMem cur rest _ _ hr]
      by_cases hs : (lookupKey fn cur).isSome = true
      · simp [hs, lookupKey_insertKey_self]
      · simp [hs]

theorem stageSyncRemovals_step_preserve (nf : FileSet) (q : String × Option String)
    (acc : Snapshot) (k : String) (hk : ¬ q.1 = k) :
    lookupKey k (if (lookupKey q.1 nf).isNone && (lookupKey q.1 acc).isNone then
        insertKey q.1 none acc else acc) = lookupKey k acc := by
  by_cases hc : ((lookupKey q.1 nf).isNone && (lookupKey q.1 acc).isNone) = true
  · simp [hc, lookupKey_insertKey_ne _ _ hk]
  · simp [hc]

theorem stageSyncRemovals_preserve (cur : Snapshot) (nf : FileSet) (acc : Snapshot)
    (k : String) (v : Option String) (h : lookupKey k acc = some v) :
    lookupKey k (stageSyncRemovals cur nf acc) = some v := by
  induction cur generalizing acc with
  | nil => exact h
  | cons q rest ih =>
    rw [show stageSyncRemovals (q :: rest) nf acc = stageSyncRemovals rest nf
        (if (lookupKey q.1 nf).isNone && (lookupKey q.1 acc).isNone then
          insertKey q.1 none acc else acc) from rfl]
    apply ih
    by_cases hq : q.1 = k
    · subst hq
      simp [h]
    · rw [stageSyncRemovals_step_preserve nf q acc k hq, h]

theorem stageSyncRemovals_lookup (cur : Snapshot) (nf : FileSet) (acc : Snapshot)
    (k : String) (hc : (keys cur).Nodup) :
    lookupKey k (stageSyncRemovals cur nf acc) =
      if (lookupKey k cur).isSome ∧ lookupKey k nf = none ∧ lookupKey k acc = none
      then some none else lookupKey k acc := by
  induction cur generalizing acc with
  | nil => simp [stageSyncRemovals, lookupKey]
  | cons q rest ih =>
    simp only [keys, List.map_cons, List.nodup_cons] at hc
    rw [show stageSyncRemovals (q :: rest) nf acc = stageSyncRemovals rest nf
        (if (lookupKey q.1 nf).isNone && (lookupKey q.1 acc).isNone then
          insertKey q.1 none acc else acc) from rfl, ih _ hc.2]
    by_cases hq : q.1 = k
    · subst hq
      have hrest : lookupKey q.1 rest = none := by
        rw [lookupKey_eq_none_iff]
        exact hc.1
      rw [hrest]
      simp only [Option.isSome_none, Bool.false_eq_true, false_and, if_false,
        lookupKey, if_pos rfl, Option.isSome_some, true_and]
      cases hnf : lookupKey q.1 nf with
      | some c => simp [hnf]
      | none =>
        cases hacc : lookupKey q.1 acc with
        | some w => simp [hacc, hnf]
        | none => simp [hacc, hnf, lookupKey_insertKey_self]
    · rw [stageSyncRemovals_step_preserve nf q acc k hq]
      simp only [lookupKey, if_neg hq]

theorem stageNewFiles_keys_nodup (cur : Snapshot) (nf : FileSet) (acc : Snapshot)
    (h : (keys acc).Nodup) : (keys (stageNewFiles cur nf acc)).Nodup := by
  induction nf generalizing acc with
  | nil => exact h
  | cons kv rest ih =>
    rw [show stageNewFiles cur (kv :: rest) acc = stageNewFiles cur rest
        (match lookupKey kv.1 cur with
         | some r => if r.getD "" = kv.2 then acc else insertKey kv.1 (some kv.2) acc
         | none => insertKey kv.1 (some kv.2) acc) from rfl]
    apply ih
    cases hc : lookupKey kv.1 cur with
    | some r =>
      by_cases he : r.getD "" = kv.2
      · simpa [he] using h
      · simpa [he] using keys_insertKey_nodup kv.1 (some kv.2) acc h
    | none => simpa using keys_insertKey_nodup kv.1 (some kv.2) acc h

theorem stageRemovals_keys_nodup (cur : Snapshot) (ftr : List String) (acc : Snapshot)
    (h : (keys acc).Nodup) : (keys (stageRemovals cur ftr acc)).Nodup := by
  induction ftr generalizing acc with
  | nil => exact h
  | cons fn rest ih =>
    rw [show stageRemovals cur (fn :: rest) acc = stageRemovals cur rest
        (if (lookupKey fn cur).isSome then insertKey fn none acc else acc) from rfl]
    apply ih
    by_cases hs : (lookupKey fn cur).isSome = true
    · simpa [hs] using keys_insertKey_nodup fn none acc h
    · simpa [hs] using h

theorem stageSyncRemovals_keys_nodup (cur : Snapshot) (nf : FileSet) (acc : Snapshot)
    (h : (keys acc).Nodup) : (keys (stageSyncRemovals cur nf acc)).Nodup := by
  induction cur generalizing acc with
  | nil => exact h
  | cons q rest ih =>
    rw [show stageSyncRemovals (q :: rest) nf acc = stageSyncRemovals rest nf
        (if (lookupKey q.1 nf).isNone && (lookupKey q.1 acc).isNone then
          insertKey q.1 none acc else acc) from rfl]
    apply ih
    by_cases hc : ((lookupKey q.1 nf).isNone && (lookupKey q.1 acc).isNone) = true
    · simpa [hc] using keys_insertKey_nodup q.1 none acc h
    · simpa [hc] using h

theorem prepareUpdatePayload_keys_nodup (cur : Snapshot) (nf : FileSet)
    (ftr : List String) (desc : Option String) (sync : Bool) :
    (keys (prepareUpdatePayload cur nf ftr desc sync).files).Nodup := by
  have h1 : (keys (stageNewFiles cur nf [])).Nodup :=
    stageNewFiles_keys_nodup cur nf [] (by simp [keys])
  have h2 := stageRemovals_keys_nodup cur ftr _ h1
  by_cases hs : (sync && !nf.isEmpty) = true
  · simpa [prepareUpdatePayload, hs] using stageSyncRemovals_keys_nodup cur nf _ h2
  · simpa [prepareUpdatePayload, hs] using h2

theorem countP_key_eq_zero {α : Type} (k : String) (d : List (String × α))
    (h : k ∉ keys d) : d.countP (fun p => decide (p.1 = k)) = 0 := by
  rw [List.countP_eq_zero]
  intro p hp
  simp only [decide_eq_true_eq]
  intro he
  exact h (List.mem_map.mpr ⟨p, hp, he⟩)

theorem countP_key_eq_one {α : Type} (k : String) (d : List (String × α))
    (hnd : (keys d).Nodup) (hmem : k ∈ keys d) :
    d.countP (fun p => decide (p.1 = k)) = 1 := by
  induction d with
  | nil => simp [keys] at hmem
  | cons p ps ih =>
    simp only [keys, List.map_cons, List.nodup_cons] at hnd
    simp only [keys, List.map_cons, List.mem_cons] at hmem
    rw [List.countP_cons]
    by_cases hp : p.1 = k
    · have hz : k ∉ keys ps := hp ▸ hnd.1
      rw [countP_key_eq_zero k ps hz]
      simp [hp]
    · rcases hmem with h1 | h2
      · exact absurd h1.symm hp
      · rw [ih hnd.2 h2]
        simp [hp]

theorem eq_nil_of_lookupKey_none {α : Type} (d : List (String × α))
    (h : ∀ k, lookupKey k d = none) : d = [] := by
  cases d with
  | nil => rfl
  | cons p ps =>
    have hp := h p.1
    simp [lookupKey] at hp

/-! ### Claim theorems about the reconciler -/

/-- C1: for every snapshot and intent with `sync` true, a non-empty file
map whose filenames form a proper subset of the snapshot's (and no
explicit removals, as in the sync update path), the payload tombstones
exactly the snapshot filenames missing from the intent, and stages each
intent file as an add when absent, a modify when present with different
content, and nothing when identical. -/
theorem sync_payload_exact_diff (cur : Snapshot) (nf : FileSet) (desc : Option String)
    (k : String) (hcur : (keys cur).Nodup) (hnf : (keys nf).Nodup) (hne : nf ≠ [])
    (hsub : ∀ k' ∈ keys nf, k' ∈ keys cur) (hproper : ∃ k' ∈ keys cur, k' ∉ keys nf) :
    lookupKey k (prepareUpdatePayload cur nf [] desc true).files =
      match lookupKey k nf with
      | some c =>
        if (lookupKey k cur).map (fun r => r.getD "") = some c then none
        else some (some c)
      | none => if (lookupKey k cur).isSome then some none else none := by
  have hnfE : nf.isEmpty = false := by
    cases nf
    · exact absurd rfl hne
    · rfl
  have hfiles : (prepareUpdatePayload cur nf [] desc true).files =
      stageSyncRemovals cur nf (stageNewFiles cur nf []) := by
    simp [prepareUpdatePayload, stageRemovals, hnfE]
  rw [hfiles, stageSyncRemovals_lookup cur nf _ k hcur]
  cases hk : lookupKey k nf with
  | some c =>
    rw [stageNewFiles_lookup_some cur nf [] k c hnf hk]
    simp [hk, lookupKey]
  | none =>
    rw [stageNewFiles_lookup_none cur nf [] k hk]
    simp [hk, lookupKey]

theorem sync_payload_exact_diff_witness :
    lookupKey "README.md" (prepareUpdatePayload
        [("main.py", some "A"), ("README.md", some "B")] [("main.py", "A2")]
        [] none true).files =
      match lookupKey "README.md" [("main.py", "A2")] with
      | some c =>
        if (lookupKey "README.md" [("main.py", some "A"), ("README.md", some "B")]).map
            (fun r => r.getD "") = some c then none
        else some (some c)
      | none =>
        if (lookupKey "README.md"
            [("main.py", some "A"), ("README.md", some "B")]).isSome then some none
        else none :=
  sync_payload_exact_diff [("main.py", some "A"), ("README.md", some "B")]
    [("main.py", "A2")] none "README.md" (by decide) (by decide) (by decide)
    (by decide) (by decide)

/-- C2: a filename present in the snapshot and listed in
`files_to_remove` ends up mapped to exactly one tombstone entry in the
final files payload, overriding any staged add/modify and never
duplicated, for every intent and either sync mode. -/
theorem removal_overrides_staging (cur : Snapshot) (nf : FileSet) (ftr : List String)
    (desc : Option String) (sync : Bool) (k : String)
    (hmem : k ∈ ftr) (hcur : (lookupKey k cur).isSome = true) :
    lookupKey k (prepareUpdatePayload cur nf ftr desc sync).files = some none ∧
    (prepareUpdatePayload cur nf ftr desc sync).files.countP
      (fun p => decide (p.1 = k)) = 1 := by
  have h2 : lookupKey k (stageRemovals cur ftr (stageNewFiles cur nf [])) = some none := by
    rw [stageRemovals_lookup_mem cur ftr _ k hmem, if_pos hcur]
  have hfiles : lookupKey k (prepareUpdatePayload cur nf ftr desc sync).files = some none := by
    by_cases hs : (sync && !nf.isEmpty) = true
    · simpa [prepareUpdatePayload, hs] using
        stageSyncRemovals_preserve cur nf _ k none h2
    · simpa [prepareUpdatePayload, hs] using h2
  refine ⟨hfiles, ?_⟩
  refine countP_key_eq_one k _ (prepareUpdatePayload_keys_nodup cur nf ftr desc sync) ?_
  rw [← lookupKey_isSome_iff, hfiles]
  rfl

theorem removal_overrides_staging_witness :
    lookupKey "a.py" (prepareUpdatePayload [("a.py", some "x")] [("a.py", "y")]
        ["a.py"] none true).files = some none ∧
    (prepareUpdatePayload [("a.py", some "x")] [("a.py", "y")]
        ["a.py"] none true).files.countP (fun p => decide (p.1 = "a.py")) = 1 :=
  removal_overrides_staging [("a.py", some "x")] [("a.py", "y")] ["a.py"] none true
    "a.py" (by decide) (by decide)

/-- C3: an intent whose files are all present in the snapshot with
identical content, with no removals, no description and sync false, is
rejected by `update_gist` with the no-op error before any network
call. -/
theorem identical_subset_noop (cur : Snapshot) (nf : FileSet)
    (hsub : ∀ p ∈ nf, lookupKey p.1 cur = some (some p.2)) :
    updateGistPayload cur nf none [] =
      Except.error "No changes detected. Nothing to update." := by
  have h1 : stageNewFiles cur nf [] = [] := by
    induction nf with
    | nil => rfl
    | cons kv rest ih =>
      have hkv := hsub kv (List.mem_cons_self kv rest)
      have hstep : stageNewFiles cur (kv :: rest) [] = stageNewFiles cur rest [] := by
        rw [show stageNewFiles cur (kv :: rest) [] = stageNewFiles cur rest
            (match lookupKey kv.1 cur with
             | some r => if r.getD "" = kv.2 then [] else insertKey kv.1 (some kv.2) []
             | none => insertKey kv.1 (some kv.2) []) from rfl, hkv]
        simp
      rw [hstep]
      exact ih (fun p hp => hsub p (List.mem_cons_of_mem kv hp))
  simp [updateGistPayload, prepareUpdatePayload, payloadIsEmpty, h1, stageRemovals]

theorem identical_subset_noop_witness :
    updateGistPayload [("f.txt", some "hello")] [("f.txt", "hello")] none [] =
      Except.error "No changes detected. Nothing to update." :=
  identical_subset_noop [("f.txt", some "hello")] [("f.txt", "hello")] (by decide)

/-- C4: with an empty intent file map, sync mode stages nothing beyond
the explicit removal list: the payload equals the non-sync payload, and
any tombstone in it names an explicitly removed file. -/
theorem empty_files_sync_stages_nothing (cur : Snapshot) (ftr : List String)
    (desc : Option String) (k : String) :
    prepareUpdatePayload cur [] ftr desc true = prepareUpdatePayload cur [] ftr desc false ∧
    (lookupKey k (prepareUpdatePayload cur [] ftr desc true).files = some none →
      k ∈ ftr) := by
  constructor
  · simp [prepareUpdatePayload]
  · intro h
    by_contra hmem
    have hfiles : (prepareUpdatePayload cur [] ftr desc true).files =
        stageRemovals cur ftr [] := by
      simp [prepareUpdatePayload, stageNewFiles]
    rw [hfiles, stageRemovals_lookup_notMem cur ftr [] k hmem] at h
    simp [lookupKey] at h

theorem empty_files_sync_stages_nothing_witness :
    prepareUpdatePayload [("a.py", some "x")] [] ["b.txt"] none true =
      prepareUpdatePayload [("a.py", some "x")] [] ["b.txt"] none false ∧
    (lookupKey "a.py" (prepareUpdatePayload [("a.py", some "x")] [] ["b.txt"]
        none true).files = some none → "a.py" ∈ ["b.txt"]) :=
  empty_files_sync_stages_nothing [("a.py", some "x")] ["b.txt"] none "a.py"

/-- C9: frame property of the non-sync update path: a filename in
neither the intent's file map nor its removal list is absent from the
computed files payload, and `update_gist` (which always reconciles with
sync off) either sends exactly that payload or rejects as a no-op. -/
theorem nonsync_update_frame (cur : Snapshot) (nf : FileSet) (ftr : List String)
    (desc : Option String) (k : String)
    (hnf : lookupKey k nf = none) (hftr : k ∉ ftr) :
    lookupKey k (prepareUpdatePayload cur nf ftr desc false).files = none ∧
    (updateGistPayload cur nf desc ftr =
        Except.ok (prepareUpdatePayload cur nf ftr desc false) ∨
      updateGistPayload cur nf desc ftr =
        Except.error "No changes detected. Nothing to update.") := by
  constructor
  · have hfiles : (prepareUpdatePayload cur nf ftr desc false).files =
        stageRemovals cur ftr (stageNewFiles cur nf []) := by
      simp [prepareUpdatePayload]
    rw [hfiles, stageRemovals_lookup_notMem cur ftr _ k hftr,
      stageNewFiles_lookup_none cur nf [] k hnf]
    rfl
  · unfold updateGistPayload
    by_cases he : payloadIsEmpty (prepareUpdatePayload cur nf ftr desc false) = true
    · right
      simp [he]
    · left
      simp [he]

theorem nonsync_update_frame_witness :
    lookupKey "keep.py" (prepareUpdatePayload [("keep.py", some "K")]
        [("other.py", "O")] ["gone.py"] none false).files = none ∧
    (updateGistPayload [("keep.py", some "K")] [("other.py", "O")] none ["gone.py"] =
        Except.ok (prepareUpdatePayload [("keep.py", some "K")] [("other.py", "O")]
          ["gone.py"] none false) ∨
      updateGistPayload [("keep.py", some "K")] [("other.py", "O")] none ["gone.py"] =
        Except.error "No changes detected. Nothing to update.") :=
  nonsync_update_frame [("keep.py", some "K")] [("other.py", "O")] ["gone.py"] none
    "keep.py" (by decide) (by decide)

/-- C10: a snapshot record lacking a `content` field compares as the
empty string: supplying that filename with empty content stages
nothing, and any non-empty content stages a modify. -/
theorem missing_content_reads_empty (cur : Snapshot) (nf : FileSet) (ftr : List String)
    (desc : Option String) (sync : Bool) (fn : String) (c : String)
    (hcur : (keys cur).Nodup) (hnf : (keys nf).Nodup)
    (hrec : lookupKey fn cur = some none) (hfn : lookupKey fn nf = some c)
    (hftr : fn ∉ ftr) :
    lookupKey fn (prepareUpdatePayload cur nf ftr desc sync).files =
      if c = "" then none else some (some c) := by
  have h1 := stageNewFiles_lookup_some cur nf [] fn c hnf hfn
  rw [hrec] at h1
  have h2 : lookupKey fn (stageRemovals cur ftr (stageNewFiles cur nf [])) =
      if (some (none : Option String)).map (fun r => r.getD "") = some c then
        lookupKey fn ([] : Snapshot) else some (some c) := by
    rw [stageRemovals_lookup_notMem cur ftr _ fn hftr, h1]
  have hval : (if (some (none : Option String)).map (fun r => r.getD "") = some c then
      lookupKey fn ([] : Snapshot) else some (some c)) =
      if c = "" then none else some (some c) := by
    by_cases hc : c = ""
    · subst hc
      simp [lookupKey]
    · have hc2 : ¬ ("" = c) := fun h => hc h.symm
      simp [hc, hc2]
  by_cases hs : (sync && !nf.isEmpty) = true
  · have hgoal : (prepareUpdatePayload cur nf ftr desc sync).files =
        stageSyncRemovals cur nf (stageRemovals cur ftr (stageNewFiles cur nf [])) := by
      simp [prepareUpdatePayload, hs]
    rw [hgoal, stageSyncRemovals_lookup cur nf _ fn hcur, hfn]
    simp only [reduceCtorEq, false_and, and_false, if_false]
    rw [h2, hval]
  · have hgoal : (prepareUpdatePayload cur nf ftr desc sync).files =
        stageRemovals cur ftr (stageNewFiles cur nf []) := by
      simp [prepareUpdatePayload, hs]
    rw [hgoal, h2, hval]

theorem missing_content_reads_empty_witness :
    lookupKey "nc.txt" (prepareUpdatePayload [("nc.txt", none)] [("nc.txt", "new")]
        [] none false).files = if "new" = "" then none else some (some "new") :=
  missing_content_reads_empty [("nc.txt", none)] [("nc.txt", "new")] [] none false
    "nc.txt" "new" (by decide) (by decide) (by decide) (by decide) (by decide)

/-! ### Batch-delete lemmas -/

theorem batchStep_foldl (deleteOne : String → Except String (String × String))
    (ids : List String) (res : BatchResults) :
    (ids.foldl (fun res gid =>
      match deleteOne gid with
      | Except.ok pr =>
        { res with deleted := res.deleted ++ [pr],
                   summary := { res.summary with deleted := res.summary.deleted + 1 } }
      | Except.error e =>
        { res with failed := res.failed ++ [(gid, e)],
                   summary := { res.summary with failed := res.summary.failed + 1 } }) res) =
    { success := res.success,
      deleted := res.deleted ++ ids.filterMap (fun i => (deleteOne i).toOption),
      failed := res.failed ++ ids.filterMap (fun i =>
        match deleteOne i with
        | Except.error e => some (i, e)
        | Except.ok _ => none),
      summary := { total := res.summary.total,
                   deleted := res.summary.deleted + ids.countP (fun i => (deleteOne i).isOk),
                   failed := res.summary.failed +
                     ids.countP (fun i => !(deleteOne i).isOk) } } := by
  induction ids generalizing res with
  | nil => simp
  | cons i rest ih =>
    simp only [List.foldl_cons]
    cases hd : deleteOne i with
    | ok pr =>
      simp only [hd, ih, List.filterMap_cons, List.countP_cons, hd, Except.isOk,
        Except.toOption, Bool.not_true, List.append_assoc, List.singleton_append]
      simp [Except.toBool, Nat.add_assoc, Nat.add_comm 1]
    | error e =>
      simp only [hd, ih, List.filterMap_cons, List.countP_cons, hd, Except.isOk,
        Except.toOption, Bool.not_false, List.append_assoc, List.singleton_append]
      simp [Except.toBool, Nat.add_assoc, Nat.add_comm 1]

theorem length_filterMap_ok (deleteOne : String → Except String (String × String))
    (ids : List String) :
    (ids.filterMap (fun i => (deleteOne i).toOption)).length =
      ids.countP (fun i => (deleteOne i).isOk) := by
  induction ids with
  | nil => rfl
  | cons i rest ih =>
    cases hd : deleteOne i with
    | ok pr =>
      have h1 : (Except.ok pr : Except String (String × String)).toOption = some pr := rfl
      have h2 : (Except.ok pr : Except String (String × String)).isOk = true := rfl
      simp [List.filterMap_cons, List.countP_cons, hd, h1, h2, ih]
    | error e =>
      have h1 : (Except.error e : Except String (String × String)).toOption =
        (none : Option (String × String)) := rfl
      have h2 : (Except.error e : Except String (String × String)).isOk = false := rfl
      simp [List.filterMap_cons, List.countP_cons, hd, h1, h2, ih]

theorem length_filterMap_err (deleteOne : String → Except String (String × String))
    (ids : List String) :
    (ids.filterMap (fun i =>
        match deleteOne i with
        | Except.error e => some (i, e)
        | Except.ok _ => none)).length =
      ids.countP (fun i => !(deleteOne i).isOk) := by
  induction ids with
  | nil => rfl
  | cons i rest ih =>
    cases hd : deleteOne i with
    | ok pr =>
      have h1 : (Except.ok pr : Except String (String × String)).toOption = some pr := rfl
      have h2 : (Except.ok pr : Except String (String × String)).isOk = true := rfl
      simp [List.filterMap_cons, List.countP_cons, hd, h1, h2, ih]
    | error e =>
      have h1 : (Except.error e : Except String (String × String)).toOption =
        (none : Option (String × String)) := rfl
      have h2 : (Except.error e : Except String (String × String)).isOk = false := rfl
      simp [List.filterMap_cons, List.countP_cons, hd, h1, h2, ih]

theorem countP_ok_add_countP_err (deleteOne : String → Except String (String × String))
    (ids : List String) :
    ids.countP (fun i => (deleteOne i).isOk) +
      ids.countP (fun i => !(deleteOne i).isOk) = ids.length := by
  induction ids with
  | nil => rfl
  | cons i rest ih =>
    cases hd : deleteOne i with
    | ok pr =>
      have h2 : (deleteOne i).isOk = true := by rw [hd]; rfl
      simp [List.countP_cons, h2]
      omega
    | error e =>
      have h2 : (deleteOne i).isOk = false := by rw [hd]; rfl
      simp [List.countP_cons, h2]
      omega

/-- C8: `delete_gists_batch` processes every id (the per-id result
lists together have one entry per input id, and the summary counts
match), a failure never aborts the rest, and overall success holds
exactly when every individual delete succeeded. -/
theorem batch_delete_complete (deleteOne : String → Except String (String × String))
    (ids : List String) :
    (deleteGistsBatch deleteOne ids).summary.total = ids.length ∧
    (deleteGistsBatch deleteOne ids).summary.deleted +
      (deleteGistsBatch deleteOne ids).summary.failed = ids.length ∧
    (deleteGistsBatch deleteOne ids).deleted.length =
      (deleteGistsBatch deleteOne ids).summary.deleted ∧
    (deleteGistsBatch deleteOne ids).failed.length =
      (deleteGistsBatch deleteOne ids).summary.failed ∧
    ((deleteGistsBatch deleteOne ids).success = true ↔
      ids.all (fun i => (deleteOne i).isOk) = true) := by
  have hb := batchStep_foldl deleteOne ids
    { success := false, deleted := [], failed := [],
      summary := { total := ids.length, deleted := 0, failed := 0 } }
  simp only [deleteGistsBatch, hb]
  refine ⟨trivial, ?_, ?_, ?_, ?_⟩
  · simpa using countP_ok_add_countP_err deleteOne ids
  · simpa using length_filterMap_ok deleteOne ids
  · simpa using length_filterMap_err deleteOne ids
  · simp only [decide_eq_true_eq, Nat.zero_add]
    rw [List.countP_eq_zero, List.all_eq_true]
    constructor
    · intro h i hi
      have := h i hi
      simpa using this
    · intro h i hi
      simpa using h i hi

/-! ### Applying a payload to a snapshot (for the idempotence claim) -/

theorem applyFilter1_lookup_none (fp : Snapshot) (l : Snapshot) (k : String)
    (h : lookupKey k l = none) :
    lookupKey k (l.filterMap (fun q =>
      match lookupKey q.1 fp with
      | some none => none
      | some (some c) => some (q.1, some c)
      | none => some q)) = none := by
  induction l with
  | nil => rfl
  | cons q rest ih =>
    by_cases hq : q.1 = k
    · simp [lookupKey, hq] at h
    · simp only [lookupKey, if_neg hq] at h
      rw [List.filterMap_cons]
      cases hf : lookupKey q.1 fp with
      | none => simp [lookupKey, hq, ih h]
      | some o =>
        cases o with
        | none => simpa using ih h
        | some c => simp [lookupKey, hq, ih h]

theorem applyFilter1_lookup (cur fp : Snapshot) (k : String)
    (hc : (keys cur).Nodup) :
    lookupKey k (cur.filterMap (fun q =>
      match lookupKey q.1 fp with
      | some none => none
      | some (some c) => some (q.1, some c)
      | none => some q)) =
    match lookupKey k cur with
    | none => none
    | some r =>
      match lookupKey k fp with
      | some none => none
      | some (some c) => some (some c)
      | none => some r := by
  induction cur with
  | nil => simp [lookupKey]
  | cons q rest ih =>
    simp only [keys, List.map_cons, List.nodup_cons] at hc
    rw [List.filterMap_cons]
    by_cases hq : q.1 = k
    · subst hq
      have hrest : lookupKey q.1 rest = none := (lookupKey_eq_none_iff _ _).mpr hc.1
      cases hf : lookupKey q.1 fp with
      | none => simp [hf, lookupKey]
      | some o =>
        cases o with
        | none => simp [hf, lookupKey, applyFilter1_lookup_none fp rest q.1 hrest]
        | some c => simp [hf, lookupKey]
    · have hl : lookupKey k (q :: rest) = lookupKey k rest := by
        simp [lookupKey, hq]
      rw [hl]
      cases hf : lookupKey q.1 fp with
      | none => simp [lookupKey, hq, ih hc.2]
      | some o =>
        cases o with
        | none => simpa using ih hc.2
        | some c => simp [lookupKey, hq, ih hc.2]

theorem applyFilter2_lookup_none (cur : Snapshot) (l : Snapshot) (k : String)
    (h : lookupKey k l = none) :
    lookupKey k (l.filterMap (fun q =>
      match q.2, lookupKey q.1 cur with
      | some c, none => some (q.1, some c)
      | _, _ => none)) = none := by
  induction l with
  | nil => rfl
  | cons q rest ih =>
    by_cases hq : q.1 = k
    · simp [lookupKey, hq] at h
    · simp only [lookupKey, if_neg hq] at h
      rw [List.filterMap_cons]
      cases hv : q.2 with
      | none => simpa using ih h
      | some c =>
        cases hc : lookupKey q.1 cur with
        | none => simp [hv, hc, lookupKey, hq, ih h]
        | some r => simp [hv, hc, ih h]

theorem applyFilter2_lookup (cur fp : Snapshot) (k : String)
    (hp : (keys fp).Nodup) :
    lookupKey k (fp.filterMap (fun q =>
      match q.2, lookupKey q.1 cur with
      | some c, none => some (q.1, some c)
      | _, _ => none)) =
    match lookupKey k fp, lookupKey k cur with
    | some (some c), none => some (some c)
    | _, _ => none := by
  induction fp with
  | nil => simp [lookupKey]
  | cons q rest ih =>
    simp only [keys, List.map_cons, List.nodup_cons] at hp
    rw [List.filterMap_cons]
    by_cases hq : q.1 = k
    · subst hq
      have hrest : lookupKey q.1 rest = none := (lookupKey_eq_none_iff _ _).mpr hp.1
      have hhead : lookupKey q.1 (q :: rest) = some q.2 := by simp [lookupKey]
      cases hv : q.2 with
      | none =>
        rw [hhead, hv]
        simpa using applyFilter2_lookup_none cur rest q.1 hrest
      | some c =>
        rw [hhead, hv]
        cases hc : lookupKey q.1 cur with
        | none => simp [hv, hc, lookupKey]
        | some r =>
          simp only [hv, hc]
          simpa using applyFilter2_lookup_none cur rest q.1 hrest
    · have hl : lookupKey k (q :: rest) = lookupKey k rest := by
        simp [lookupKey, hq]
      rw [hl]
      cases hv : q.2 with
      | none => simpa using ih hp.2
      | some c =>
        cases hc : lookupKey q.1 cur with
        | none => simp [hv, hc, lookupKey, hq, ih hp.2]
        | some r => simp [hv, hc, ih hp.2]

theorem applySnapshot_lookup (cur fp : Snapshot) (k : String)
    (hc : (keys cur).Nodup) (hp : (keys fp).Nodup) :
    lookupKey k (applySnapshot cur fp) =
      match lookupKey k fp with
      | some none => none
      | some (some c) => some (some c)
      | none => lookupKey k cur := by
  have h1 := applyFilter1_lookup cur fp k hc
  have h2 := applyFilter2_lookup cur fp k hp
  unfold applySnapshot
  cases hf : lookupKey k fp with
  | none =>
    cases hcu : lookupKey k cur with
    | none =>
      simp only [hf, hcu] at h1 h2
      rw [lookupKey_append_of_none _ h1, h2]
    | some r =>
      simp only [hf, hcu] at h1 h2
      rw [lookupKey_append_of_some _ h1]
  | some o =>
    cases o with
    | none =>
      cases hcu : lookupKey k cur with
      | none =>
        simp only [hf, hcu] at h1 h2
        rw [lookupKey_append_of_none _ h1, h2]
      | some r =>
        simp only [hf, hcu] at h1 h2
        rw [lookupKey_append_of_none _ h1, h2]
    | some c =>
      cases hcu : lookupKey k cur with
      | none =>
        simp only [hf, hcu] at h1 h2
        rw [lookupKey_append_of_none _ h1, h2]
      | some r =>
        simp only [hf, hcu] at h1 h2
        rw [lookupKey_append_of_some _ h1]

theorem keys_filterMap_sublist {α β : Type} (f : (String × α) → Option (String × β))
    (hf : ∀ p q, f p = some q → q.1 = p.1) (l : List (String × α)) :
    List.Sublist (keys (l.filterMap f)) (keys l) := by
  induction l with
  | nil => simp [keys]
  | cons p rest ih =>
    rw [List.filterMap_cons]
    cases hfp : f p with
    | none =>
      exact List.Sublist.cons p.1 ih
    | some q =>
      have : keys (q :: rest.filterMap f) = q.1 :: keys (rest.filterMap f) := rfl
      rw [this, hf p q hfp]
      exact List.Sublist.cons₂ p.1 ih

theorem applySnapshot_keys_nodup (cur fp : Snapshot)
    (hc : (keys cur).Nodup) (hp : (keys fp).Nodup) :
    (keys (applySnapshot cur fp)).Nodup := by
  unfold applySnapshot
  have hsub1 : List.Sublist (keys (cur.filterMap (fun q =>
      match lookupKey q.1 fp with
      | some none => none
      | some (some c) => some (q.1, some c)
      | none => some q))) (keys cur) := by
    apply keys_filterMap_sublist
    intro p q hpq
    cases hl : lookupKey p.1 fp with
    | none => rw [hl] at hpq; cases hpq; rfl
    | some o =>
      cases o with
      | none => rw [hl] at hpq; cases hpq
      | some c => rw [hl] at hpq; cases hpq; rfl
  have hsub2 : List.Sublist (keys (fp.filterMap (fun q =>
      match q.2, lookupKey q.1 cur with
      | some c, none => some (q.1, some c)
      | _, _ => none))) (keys fp) := by
    apply keys_filterMap_sublist
    intro p q hpq
    cases hv : p.2 with
    | none => rw [hv] at hpq; cases hpq
    | some c =>
      cases hl : lookupKey p.1 cur with
      | none => rw [hv, hl] at hpq; cases hpq; rfl
      | some r => rw [hv, hl] at hpq; cases hpq
  simp only [keys, List.map_append]
  refine List.Nodup.append (hc.sublist hsub1) (hp.sublist hsub2) ?_
  intro a ha1 ha2
  have hmem1 : a ∈ keys cur := hsub1.subset ha1
  rcases List.mem_map.mp ha2 with ⟨p, hp2, hpa⟩
  rcases List.mem_filterMap.mp hp2 with ⟨q, hq, hfq⟩
  cases hv : q.2 with
  | none => rw [hv] at hfq; cases hfq
  | some c =>
    cases hl : lookupKey q.1 cur with
    | none =>
      rw [hv, hl] at hfq
      cases hfq
      have : q.1 ∉ keys cur := (lookupKey_eq_none_iff _ _).mp hl
      exact this (hpa ▸ hmem1)
    | some r => rw [hv, hl] at hfq; cases hfq

/-! ### A single characterization of the reconciler's staged value -/

/-- The value loop 1 leaves staged for filename `k`. -/
def stage1Value (cur : Snapshot) (nf : FileSet) (k : String) : Option (Option String) :=
  match lookupKey k nf with
  | some c =>
    if (lookupKey k cur).map (fun r => r.getD "") = some c then none
    else some (some c)
  | none => none

/-- The value loops 1-2 leave staged for filename `k`. -/
def stage2Value (cur : Snapshot) (nf : FileSet) (ftr : List String) (k : String) :
    Option (Option String) :=
  if k ∈ ftr ∧ (lookupKey k cur).isSome then some none else stage1Value cur nf k

/-- The value the whole reconciler leaves staged for filename `k`. -/
def stagedValue (cur : Snapshot) (nf : FileSet) (ftr : List String) (sync : Bool)
    (k : String) : Option (Option String) :=
  if (sync && !nf.isEmpty) = true ∧ (lookupKey k cur).isSome ∧
      lookupKey k nf = none ∧ stage2Value cur nf ftr k = none
  then some none else stage2Value cur nf ftr k

theorem prepare_lookup_master (cur : Snapshot) (nf : FileSet) (ftr : List String)
    (desc : Option String) (sync : Bool) (k : String)
    (hcur : (keys cur).Nodup) (hnf : (keys nf).Nodup) :
    lookupKey k (prepareUpdatePayload cur nf ftr desc sync).files =
      stagedValue cur nf ftr sync k := by
  have h1 : lookupKey k (stageNewFiles cur nf []) = stage1Value cur nf k := by
    cases hk : lookupKey k nf with
    | some c =>
      rw [stageNewFiles_lookup_some cur nf [] k c hnf hk, stage1Value, hk]
      by_cases he : (lookupKey k cur).map (fun r => r.getD "") = some c
      · simp [he, lookupKey]
      · simp [he]
    | none =>
      rw [stageNewFiles_lookup_none cur nf [] k hk, stage1Value, hk]
      rfl
  have h2 : lookupKey k (stageRemovals cur ftr (stageNewFiles cur nf [])) =
      stage2Value cur nf ftr k := by
    by_cases hm : k ∈ ftr
    · rw [stageRemovals_lookup_mem cur ftr _ k hm, h1, stage2Value]
      by_cases hsome : (lookupKey k cur).isSome = true
      · simp [hm, hsome]
      · simp [hm, hsome]
    · rw [stageRemovals_lookup_notMem cur ftr _ k hm, h1, stage2Value]
      simp [hm]
  by_cases hs : (sync && !nf.isEmpty) = true
  · have hfiles : (prepareUpdatePayload cur nf ftr desc sync).files =
        stageSyncRemovals cur nf (stageRemovals cur ftr (stageNewFiles cur nf [])) := by
      simp [prepareUpdatePayload, hs]
    rw [hfiles, stageSyncRemovals_lookup cur nf _ k hcur, h2, stagedValue]
    simp [hs]
  · have hfiles : (prepareUpdatePayload cur nf ftr desc sync).files =
        stageRemovals cur ftr (stageNewFiles cur nf []) := by
      simp [prepareUpdatePayload, hs]
    rw [hfiles, h2, stagedValue]
    simp [hs]

/-- After the first reconciliation's payload is applied, running loops
1-2 of the reconciler again (provided no removed filename is also in
the intent's file map) stages nothing, and when sync staging would run,
every filename still in the applied snapshot is in the intent's map. -/
theorem secondRun_stage2_none (cur : Snapshot) (nf : FileSet) (ftr : List String)
    (sync : Bool) (k : String)
    (hcur : (keys cur).Nodup) (hnf : (keys nf).Nodup)
    (hdisj : ∀ x ∈ ftr, lookupKey x nf = none) :
    lookupKey k (stageRemovals
        (applySnapshot cur (prepareUpdatePayload cur nf ftr none sync).files) ftr
        (stageNewFiles
          (applySnapshot cur (prepareUpdatePayload cur nf ftr none sync).files)
          nf [])) = none ∧
    ((sync && !nf.isEmpty) = true →
      (lookupKey k
        (applySnapshot cur (prepareUpdatePayload cur nf ftr none sync).files)).isSome =
        true → lookupKey k nf ≠ none) := by
  set P := (prepareUpdatePayload cur nf ftr none sync).files with hPdef
  have hPnd : (keys P).Nodup := prepareUpdatePayload_keys_nodup cur nf ftr none sync
  set C := applySnapshot cur P with hCdef
  have hPk : lookupKey k P = stagedValue cur nf ftr sync k :=
    prepare_lookup_master cur nf ftr none sync k hcur hnf
  have hCk : lookupKey k C =
      match lookupKey k P with
      | some none => none
      | some (some c) => some (some c)
      | none => lookupKey k cur :=
    applySnapshot_lookup cur P k hcur hPnd
  cases hnfk : lookupKey k nf with
  | some c =>
    have hkftr : k ∉ ftr := by
      intro hm
      rw [hdisj k hm] at hnfk
      cases hnfk
    have hPv : lookupKey k P =
        (if (lookupKey k cur).map (fun r => r.getD "") = some c then none
         else some (some c)) := by
      rw [hPk, stagedValue, stage2Value, stage1Value, hnfk]
      simp [hkftr]
    have hCv : (lookupKey k C).map (fun r => r.getD "") = some c := by
      rw [hCk]
      by_cases he : (lookupKey k cur).map (fun r => r.getD "") = some c
      · rw [hPv, if_pos he]
        exact he
      · rw [hPv, if_neg he]
        rfl
    constructor
    · have h1 : lookupKey k (stageNewFiles C nf []) = none := by
        rw [stageNewFiles_lookup_some C nf [] k c hnf hnfk, if_pos hCv]
        rfl
      rw [stageRemovals_lookup_notMem C ftr _ k hkftr, h1]
    · intro _ _
      simp
  | none =>
    have h1 : lookupKey k (stageNewFiles C nf []) = none := by
      rw [stageNewFiles_lookup_none C nf [] k hnfk]
      rfl
    have hs1 : stage1Value cur nf k = none := by rw [stage1Value, hnfk]
    by_cases hm : k ∈ ftr
    · have hCnone : lookupKey k C = none := by
        rw [hCk, hPk, stagedValue, stage2Value, hs1]
        cases hA : lookupKey k cur with
        | some r => simp [hm, hA]
        | none => simp [hm, hA]
      constructor
      · rw [stageRemovals_lookup_mem C ftr _ k hm, h1, hCnone]
        simp
      · intro _ hsome
        rw [hCnone] at hsome
        cases hsome
    · constructor
      · rw [stageRemovals_lookup_notMem C ftr _ k hm, h1]
      · intro hsync hsome
        have hCnone : lookupKey k C = none := by
          rw [hCk, hPk, stagedValue, stage2Value, hs1]
          cases hA : lookupKey k cur with
          | some r => simp [hm, hsync, hA, hnfk]
          | none => simp [hm, hA]
        rw [hCnone] at hsome
        cases hsome

/-- C7 (amended): idempotence of reconciliation for intents whose
removal list is disjoint from their file map (description unset): if S2
is S with the computed payload applied — staged contents written,
tombstoned files deleted — then reconciling the same intent against S2
stages no file changes and the second update attempt is rejected as a
no-op. -/
theorem reconcile_idempotent (cur : Snapshot) (nf : FileSet) (ftr : List String)
    (sync : Bool) (hcur : (keys cur).Nodup) (hnf : (keys nf).Nodup)
    (hdisj : ∀ x ∈ ftr, lookupKey x nf = none) :
    (prepareUpdatePayload
        (applySnapshot cur (prepareUpdatePayload cur nf ftr none sync).files)
        nf ftr none sync).files = [] ∧
    updateGistPayload
        (applySnapshot cur (prepareUpdatePayload cur nf ftr none sync).files)
        nf none ftr =
      Except.error "No changes detected. Nothing to update." := by
  set P := (prepareUpdatePayload cur nf ftr none sync).files with hPdef
  have hPnd : (keys P).Nodup := by
    rw [hPdef]
    exact prepareUpdatePayload_keys_nodup cur nf ftr none sync
  set C := applySnapshot cur P with hCdef
  have hCnd : (keys C).Nodup := by
    rw [hCdef]
    exact applySnapshot_keys_nodup cur P hcur hPnd
  have key : ∀ b : Bool, ((b && !nf.isEmpty) = true → (sync && !nf.isEmpty) = true) →
      (prepareUpdatePayload C nf ftr none b).files = [] := by
    intro b hb
    apply eq_nil_of_lookupKey_none
    intro k
    obtain ⟨F1, F2⟩ := secondRun_stage2_none cur nf ftr sync k hcur hnf hdisj
    rw [← hPdef, ← hCdef] at F1 F2
    by_cases hbs : (b && !nf.isEmpty) = true
    · have hfiles : (prepareUpdatePayload C nf ftr none b).files =
          stageSyncRemovals C nf (stageRemovals C ftr (stageNewFiles C nf [])) := by
        simp [prepareUpdatePayload, hbs]
      rw [hfiles, stageSyncRemovals_lookup C nf _ k hCnd, F1]
      by_cases hsome : (lookupKey k C).isSome = true
      · have hnfne := F2 (hb hbs) hsome
        cases hnfk : lookupKey k nf with
        | none => exact absurd hnfk hnfne
        | some c => simp [hnfk]
      · simp [hsome]
    · have hfiles : (prepareUpdatePayload C nf ftr none b).files =
          stageRemovals C ftr (stageNewFiles C nf []) := by
        simp [prepareUpdatePayload, hbs]
      rw [hfiles]
      exact F1
  refine ⟨key sync (fun h => h), ?_⟩
  have hf0 : (prepareUpdatePayload C nf ftr none false).files = [] :=
    key false (by intro h; simp at h)
  have hdesc : (prepareUpdatePayload C nf ftr none false).description = none := rfl
  simp [updateGistPayload, payloadIsEmpty, hf0, hdesc]

theorem reconcile_idempotent_witness :
    (prepareUpdatePayload
        (applySnapshot [("main.py", some "A"), ("README.md", some "B")]
          (prepareUpdatePayload [("main.py", some "A"), ("README.md", some "B")]
            [("main.py", "A2")] [] none true).files)
        [("main.py", "A2")] [] none true).files = [] ∧
    updateGistPayload
        (applySnapshot [("main.py", some "A"), ("README.md", some "B")]
          (prepareUpdatePayload [("main.py", some "A"), ("README.md", some "B")]
            [("main.py", "A2")] [] none true).files)
        [("main.py", "A2")] none [] =
      Except.error "No changes detected. Nothing to update." :=
  reconcile_idempotent [("main.py", some "A"), ("README.md", some "B")]
    [("main.py", "A2")] [] true (by decide) (by decide) (by decide)

/-- C7 counterexample: with snapshot `{a.py: "x"}`, intent files
`{a.py: "x"}` and removal list `["a.py"]` (description unset, sync
false), the first reconciliation tombstones `a.py`; applying that
payload deletes the file, and reconciling the same intent against the
applied snapshot stages `a.py` as an add again, so the second attempt
is not a no-op. -/
theorem reconcile_not_idempotent_on_overlap :
    (prepareUpdatePayload [("a.py", some "x")] [("a.py", "x")] ["a.py"]
        none false).files = [("a.py", none)] ∧
    applySnapshot [("a.py", some "x")]
        (prepareUpdatePayload [("a.py", some "x")] [("a.py", "x")] ["a.py"]
          none false).files = [] ∧
    (prepareUpdatePayload [] [("a.py", "x")] ["a.py"] none false).files =
      [("a.py", some "x")] ∧
    updateGistPayload [] [("a.py", "x")] none ["a.py"] =
      Except.ok { description := none, files := [("a.py", some "x")] } :=
  ⟨rfl, rfl, rfl, rfl⟩

/-! ### Normalizer helper lemmas -/

theorem containsSub_nil_needle (l : List Char) : containsSub l [] = true := by
  cases l <;> simp [containsSub, List.isPrefixOf]

theorem isPrefixOf_self_append (l b : List Char) : l.isPrefixOf (l ++ b) = true := by
  induction l with
  | nil => simp [List.isPrefixOf]
  | cons a as ih => simp [List.isPrefixOf, ih]

theorem containsSub_of_middle (nd a b : List Char) :
    containsSub (a ++ (nd ++ b)) nd = true := by
  induction a with
  | nil =>
    rw [List.nil_append]
    cases hnd : nd with
    | nil => simpa using containsSub_nil_needle b
    | cons n nt =>
      rw [show (n :: nt) ++ b = n :: (nt ++ b) from rfl]
      rw [containsSub]
      have := isPrefixOf_self_append (n :: nt) b
      rw [show (n :: nt) ++ b = n :: (nt ++ b) from rfl] at this
      rw [this, Bool.true_or]
  | cons x a2 ih =>
    rw [show (x :: a2) ++ (nd ++ b) = x :: (a2 ++ (nd ++ b)) from rfl, containsSub, ih,
      Bool.or_true]

theorem isPrefixOf_extend {p l : List Char} (b : List Char) (h : p.isPrefixOf l = true) :
    p.isPrefixOf (l ++ b) = true := by
  induction p generalizing l with
  | nil => simp [List.isPrefixOf]
  | cons a as ih =>
    cases l with
    | nil => simp [List.isPrefixOf] at h
    | cons c cs =>
      simp only [List.isPrefixOf, Bool.and_eq_true, beq_iff_eq] at h
      simp only [List.cons_append, List.isPrefixOf, Bool.and_eq_true, beq_iff_eq]
      exact ⟨h.1, ih h.2⟩

theorem mem_of_isPrefixOf {p l : List Char} (h : p.isPrefixOf l = true) :
    ∀ c ∈ p, c ∈ l := by
  induction p generalizing l with
  | nil => simp
  | cons a as ih =>
    cases l with
    | nil => simp [List.isPrefixOf] at h
    | cons b bs =>
      simp only [List.isPrefixOf, Bool.and_eq_true, beq_iff_eq] at h
      intro c hc
      rcases List.mem_cons.mp hc with rfl | hc2
      · rw [h.1]
        exact List.mem_cons_self b bs
      · exact List.mem_cons_of_mem _ (ih h.2 c hc2)

theorem alnum_hyphen_not_ws {c : Char} (h : c.isAlphanum = true ∨ c = '-') :
    c.isWhitespace = false := by
  cases hw : c.isWhitespace
  · rfl
  · exfalso
    have hw2 : c = ' ' ∨ c = '\t' ∨ c = '\r' ∨ c = '\n' := by
      have hb : (c = ' ' || c = '\t' || c = '\r' || c = '\n') = true := hw
      have := by simpa [Bool.or_eq_true, decide_eq_true_eq] using hb
      tauto
    rcases h with h | h
    · rcases hw2 with rfl | rfl | rfl | rfl <;> exact absurd h (by decide)
    · subst h
      rcases hw2 with h2 | h2 | h2 | h2 <;> cases h2

theorem alnum_hyphen_not_special {c : Char} (h : c.isAlphanum = true ∨ c = '-') :
    c ≠ '.' ∧ c ≠ '/' ∧ c ≠ '#' := by
  rcases h with h | h
  · refine ⟨?_, ?_, ?_⟩ <;> intro he <;> rw [he] at h <;> exact absurd h (by decide)
  · rw [h]
    exact ⟨by decide, by decide, by decide⟩

theorem pyStrip_eq_self (l : List Char) (h : ∀ c ∈ l, c.isWhitespace = false) :
    pyStrip l = l := by
  have hd : ∀ (m : List Char), (∀ c ∈ m, c.isWhitespace = false) →
      m.dropWhile Char.isWhitespace = m := by
    intro m hm
    cases m with
    | nil => rfl
    | cons a t =>
      rw [List.dropWhile_cons, hm a (List.mem_cons_self a t)]
      simp
  unfold pyStrip
  rw [hd l h, hd l.reverse (fun c hc => h c (List.mem_reverse.mp hc)),
    List.reverse_reverse]

theorem valid_facts (s : String) (hv : isValidGistId s = true) :
    s.data ≠ [] ∧ ∀ c ∈ s.data, c.isAlphanum = true ∨ c = '-' := by
  simp only [isValidGistId] at hv
  split_ifs at hv with h1 h2 h3 h4 h5 h6 <;> try simp at hv
  constructor
  · intro he
    exact h1 (Or.inl (by rw [he]; rfl))
  · intro c hc
    by_cases hch : c = '-'
    · exact Or.inr hch
    · left
      have h4t : pyIsAlnum (s.data.filter (fun c => c ≠ '-')) = true := by
        cases hb : pyIsAlnum (s.data.filter (fun c => c ≠ '-'))
        · exact absurd hb h4
        · rfl
      unfold pyIsAlnum at h4t
      rw [Bool.and_eq_true] at h4t
      have hall := h4t.2
      rw [List.all_eq_true] at hall
      apply hall
      rw [List.mem_filter]
      exact ⟨hc, by simp [hch]⟩

theorem splitOn_sep_append (c : Char) (xs ys : List Char) (h : ∀ x ∈ xs, x ≠ c) :
    (xs ++ c :: ys).splitOn c = xs :: ys.splitOn c := by
  rw [List.splitOn, List.splitOn]
  apply List.splitOnP_first
  · intro x hx
    simp [h x hx]
  · simp

theorem splitOn_noSep (c : Char) (xs : List Char) (h : ∀ x ∈ xs, x ≠ c) :
    xs.splitOn c = [xs] := by
  rw [List.splitOn]
  apply List.splitOnP_eq_single
  intro x hx
  simp [h x hx]

theorem splitOn_urlPrefix (t : List Char) :
    ("https://gist.github.com/user/".data ++ t).splitOn '/' =
      "https:".data :: ([] : List Char) :: "gist.github.com".data ::
        "user".data :: t.splitOn '/' := by
  have e : "https://gist.github.com/user/".data ++ t =
      "https:".data ++ '/' :: (([] : List Char) ++ '/' ::
        ("gist.github.com".data ++ '/' :: ("user".data ++ '/' :: t))) := rfl
  rw [e, splitOn_sep_append '/' "https:".data _ (by decide),
    splitOn_sep_append '/' ([] : List Char) _ (by decide),
    splitOn_sep_append '/' "gist.github.com".data _ (by decide),
    splitOn_sep_append '/' "user".data _ (by decide)]

/-- C6 (amended): a canonical ID that passes the validation rule and
does not begin with `http` round-trips bare (`normalize(c) = c`), and
the gist URL built from the ID — plain, with a trailing slash, or with
a `#fragment` — normalizes to exactly the ID.  (A validated ID
beginning with `http`, such as `http1234`, is instead routed down the
URL branch and rejected; see the counterexample.) -/
theorem normalize_roundtrip (s : String) (hv : isValidGistId s = true)
    (hhttp : "http".data.isPrefixOf s.data = false) :
    extractGistId s = Except.ok s ∧
    extractGistId ("https://gist.github.com/user/" ++ s) = Except.ok s ∧
    extractGistId ("https://gist.github.com/user/" ++ s ++ "/") = Except.ok s ∧
    extractGistId ("https://gist.github.com/user/" ++ s ++ "#file-test") =
      Except.ok s := by
  obtain ⟨hne, hchars⟩ := valid_facts s hv
  have hws : ∀ c ∈ s.data, c.isWhitespace = false := fun c hc =>
    alnum_hyphen_not_ws (hchars c hc)
  have hspec : ∀ c ∈ s.data, c ≠ '.' ∧ c ≠ '/' ∧ c ≠ '#' := fun c hc =>
    alnum_hyphen_not_special (hchars c hc)
  have hstrip : pyStrip s.data = s.data := pyStrip_eq_self s.data hws
  have hmk : String.mk s.data = s := rfl
  have hneE : s.data.isEmpty = false := by
    cases hd : s.data
    · exact absurd hd hne
    · rfl
  have hpreWs : ∀ c ∈ "https://gist.github.com/user/".data, c.isWhitespace = false := by
    decide
  have hpreHash : ∀ c ∈ "https://gist.github.com/user/".data, c ≠ '#' := by decide
  have hpreNe : "https://gist.github.com/user/".data ≠ [] := by decide
  have hdomFalse : "gist.github.com".data.isPrefixOf s.data = false := by
    cases hb : "gist.github.com".data.isPrefixOf s.data
    · rfl
    · exact absurd rfl ((hspec '.' (mem_of_isPrefixOf hb '.' (by decide))).1)
  have hdotNot : '.' ∉ s.data := fun hdot => (hspec '.' hdot).1 rfl
  have hfinal : s.data.isEmpty = false ∧
      "gist.github.com".data.isPrefixOf s.data = false ∧ '.' ∉ s.data :=
    ⟨hneE, hdomFalse, hdotNot⟩
  refine ⟨?_, ?_, ?_, ?_⟩
  · unfold extractGistId
    rw [hstrip, if_neg (by simp [List.isEmpty_iff, hne])]
    simp only []
    rw [if_pos hhttp, if_neg (by simp [hv]), hmk]
  · have hdata : ("https://gist.github.com/user/" ++ s).data =
        "https://gist.github.com/user/".data ++ s.data := String.data_append _ _
    have hwsAll : ∀ c ∈ "https://gist.github.com/user/".data ++ s.data,
        c.isWhitespace = false := by
      intro c hc
      rcases List.mem_append.mp hc with hc | hc
      · exact hpreWs c hc
      · exact hws c hc
    have hstripU : pyStrip ("https://gist.github.com/user/".data ++ s.data) =
        "https://gist.github.com/user/".data ++ s.data := pyStrip_eq_self _ hwsAll
    have hhttpU : "http".data.isPrefixOf
        ("https://gist.github.com/user/".data ++ s.data) = true :=
      isPrefixOf_extend _ (by decide)
    have hcont : containsSub ("https://gist.github.com/user/".data ++ s.data)
        "gist.github.com".data = true := by
      rw [show "https://gist.github.com/user/".data ++ s.data =
        "https://".data ++ ("gist.github.com".data ++ ("/user/".data ++ s.data))
        from rfl]
      exact containsSub_of_middle _ _ _
    have hnofrag : (("https://gist.github.com/user/".data ++ s.data).any
        (fun c => c = '#')) = false := by
      rw [List.any_eq_false]
      intro x hx
      rcases List.mem_append.mp hx with hx | hx
      · simp [hpreHash x hx]
      · simp [(hspec x hx).2.2]
    have hsplit : ("https://gist.github.com/user/".data ++ s.data).splitOn '/' =
        ["https:".data, [], "gist.github.com".data, "user".data, s.data] := by
      rw [splitOn_urlPrefix, splitOn_noSep '/' s.data (fun c hc => (hspec c hc).2.1)]
    unfold extractGistId
    rw [hdata, hstripU, if_neg (by simp [List.isEmpty_iff, hpreNe])]
    simp only []
    rw [if_neg (by simp [hhttpU]), if_pos hcont]
    rw [hnofrag, if_neg (by simp : ¬(false = true)), hsplit]
    rw [if_pos (by simp : (4 : Nat) ≤ List.length ["https:".data, ([] : List Char),
      "gist.github.com".data, "user".data, s.data])]
    rw [show (["https:".data, ([] : List Char), "gist.github.com".data,
      "user".data, s.data]).getLastD [] = s.data by simp [List.getLastD]]
    rw [if_pos hneE, if_pos hfinal, hmk]
  · have hdata : ("https://gist.github.com/user/" ++ s ++ "/").data =
        "https://gist.github.com/user/".data ++ (s.data ++ ['/']) := by
      rw [String.data_append, String.data_append, List.append_assoc]
    have hwsAll : ∀ c ∈ "https://gist.github.com/user/".data ++ (s.data ++ ['/']),
        c.isWhitespace = false := by
      intro c hc
      rcases List.mem_append.mp hc with hc | hc
      · exact hpreWs c hc
      · rcases List.mem_append.mp hc with hc | hc
        · exact hws c hc
        · rw [List.mem_singleton.mp hc]
          decide
    have hstripU : pyStrip
        ("https://gist.github.com/user/".data ++ (s.data ++ ['/'])) =
        "https://gist.github.com/user/".data ++ (s.data ++ ['/']) :=
      pyStrip_eq_self _ hwsAll
    have hhttpU : "http".data.isPrefixOf
        ("https://gist.github.com/user/".data ++ (s.data ++ ['/'])) = true :=
      isPrefixOf_extend _ (by decide)
    have hcont : containsSub
        ("https://gist.github.com/user/".data ++ (s.data ++ ['/']))
        "gist.github.com".data = true := by
      rw [show "https://gist.github.com/user/".data ++ (s.data ++ ['/']) =
        "https://".data ++ ("gist.github.com".data ++
          ("/user/".data ++ (s.data ++ ['/']))) from rfl]
      exact containsSub_of_middle _ _ _
    have hnofrag : (("https://gist.github.com/user/".data ++
        (s.data ++ ['/'])).any (fun c => c = '#')) = false := by
      rw [List.any_eq_false]
      intro x hx
      rcases List.mem_append.mp hx with hx | hx
      · simp [hpreHash x hx]
      · rcases List.mem_append.mp hx with hx | hx
        · simp [(hspec x hx).2.2]
        · rw [List.mem_singleton.mp hx]
          decide
    have hsplit : ("https://gist.github.com/user/".data ++
        (s.data ++ ['/'])).splitOn '/' =
        ["https:".data, [], "gist.github.com".data, "user".data, s.data, []] := by
      rw [splitOn_urlPrefix,
        show s.data ++ ['/'] = s.data ++ '/' :: ([] : List Char) from rfl,
        splitOn_sep_append '/' s.data ([] : List Char)
          (fun c hc => (hspec c hc).2.1)]
      rfl
    unfold extractGistId
    rw [hdata, hstripU, if_neg (by simp [List.isEmpty_iff, hpreNe])]
    simp only []
    rw [if_neg (by simp [hhttpU]), if_pos hcont]
    rw [hnofrag, if_neg (by simp : ¬(false = true)), hsplit]
    rw [if_pos (by simp : (4 : Nat) ≤ List.length ["https:".data, ([] : List Char),
      "gist.github.com".data, "user".data, s.data, ([] : List Char)])]
    rw [show (["https:".data, ([] : List Char), "gist.github.com".data,
      "user".data, s.data, ([] : List Char)]).getLastD [] = ([] : List Char)
      by simp [List.getLastD]]
    rw [if_neg (by simp : ¬(List.isEmpty ([] : List Char) = false))]
    rw [if_pos (by simp : (5 : Nat) ≤ List.length ["https:".data, ([] : List Char),
      "gist.github.com".data, "user".data, s.data, ([] : List Char)])]
    rw [show List.length ["https:".data, ([] : List Char), "gist.github.com".data,
      "user".data, s.data, ([] : List Char)] - 2 = 4 by simp]
    rw [show (["https:".data, ([] : List Char), "gist.github.com".data,
      "user".data, s.data, ([] : List Char)]).getD 4 [] = s.data
      by simp [List.getD]]
    rw [if_pos hfinal, hmk]
  · have hdata : ("https://gist.github.com/user/" ++ s ++ "#file-test").data =
        "https://gist.github.com/user/".data ++
          (s.data ++ '#' :: "file-test".data) := by
      rw [String.data_append, String.data_append, List.append_assoc]
    have hft : ∀ x ∈ '#' :: "file-test".data, x.isWhitespace = false := by decide
    have hwsAll : ∀ c ∈ "https://gist.github.com/user/".data ++
        (s.data ++ '#' :: "file-test".data), c.isWhitespace = false := by
      intro c hc
      rcases List.mem_append.mp hc with hc | hc
      · exact hpreWs c hc
      · rcases List.mem_append.mp hc with hc | hc
        · exact hws c hc
        · exact hft c hc
    have hstripU : pyStrip ("https://gist.github.com/user/".data ++
        (s.data ++ '#' :: "file-test".data)) =
        "https://gist.github.com/user/".data ++
          (s.data ++ '#' :: "file-test".data) :=
      pyStrip_eq_self _ hwsAll
    have hhttpU : "http".data.isPrefixOf ("https://gist.github.com/user/".data ++
        (s.data ++ '#' :: "file-test".data)) = true :=
      isPrefixOf_extend _ (by decide)
    have hcont : containsSub ("https://gist.github.com/user/".data ++
        (s.data ++ '#' :: "file-test".data)) "gist.github.com".data = true := by
      rw [show "https://gist.github.com/user/".data ++
        (s.data ++ '#' :: "file-test".data) =
        "https://".data ++ ("gist.github.com".data ++
          ("/user/".data ++ (s.data ++ '#' :: "file-test".data))) from rfl]
      exact containsSub_of_middle _ _ _
    have hfrag : (("https://gist.github.com/user/".data ++
        (s.data ++ '#' :: "file-test".data)).any (fun c => c = '#')) = true := by
      rw [List.any_eq_true]
      refine ⟨'#', ?_, by simp⟩
      exact List.mem_append.mpr (Or.inr (List.mem_append.mpr
        (Or.inr (List.mem_cons_self _ _))))
    have hnohash : ∀ x ∈ "https://gist.github.com/user/".data ++ s.data,
        x ≠ '#' := by
      intro x hx
      rcases List.mem_append.mp hx with hx | hx
      · exact hpreHash x hx
      · exact (hspec x hx).2.2
    have hsplitF : (("https://gist.github.com/user/".data ++
        (s.data ++ '#' :: "file-test".data)).splitOn '#').headD [] =
        "https://gist.github.com/user/".data ++ s.data := by
      rw [show "https://gist.github.com/user/".data ++
          (s.data ++ '#' :: "file-test".data) =
          ("https://gist.github.com/user/".data ++ s.data) ++
            '#' :: "file-test".data by rw [List.append_assoc],
        splitOn_sep_append '#' _ _ hnohash]
      rfl
    have hsplit : ("https://gist.github.com/user/".data ++ s.data).splitOn '/' =
        ["https:".data, [], "gist.github.com".data, "user".data, s.data] := by
      rw [splitOn_urlPrefix, splitOn_noSep '/' s.data (fun c hc => (hspec c hc).2.1)]
    unfold extractGistId
    rw [hdata, hstripU, if_neg (by simp [List.isEmpty_iff, hpreNe])]
    simp only []
    rw [if_neg (by simp [hhttpU]), if_pos hcont]
    rw [hfrag, if_pos (by rfl : (true : Bool) = true), hsplitF, hsplit]
    rw [if_pos (by simp : (4 : Nat) ≤ List.length ["https:".data, ([] : List Char),
      "gist.github.com".data, "user".data, s.data])]
    rw [show (["https:".data, ([] : List Char), "gist.github.com".data,
      "user".data, s.data]).getLastD [] = s.data by simp [List.getLastD]]
    rw [if_pos hneE, if_pos hfinal, hmk]

theorem normalize_roundtrip_witness :
    extractGistId "abc123def456" = Except.ok "abc123def456" ∧
    extractGistId ("https://gist.github.com/user/" ++ "abc123def456") =
      Except.ok "abc123def456" ∧
    extractGistId ("https://gist.github.com/user/" ++ "abc123def456" ++ "/") =
      Except.ok "abc123def456" ∧
    extractGistId ("https://gist.github.com/user/" ++ "abc123def456" ++ "#file-test") =
      Except.ok "abc123def456" :=
  normalize_roundtrip "abc123def456" (by decide) (by decide)

/-- C6 counterexample: `http1234` passes the candidate-ID validation
rule, yet the normalizer does not return it unchanged — the
`startswith("http")` test routes it down the URL branch, which rejects
it. -/
theorem validated_http_id_rejected :
    isValidGistId "http1234" = true ∧
    extractGistId "http1234" =
      Except.error "Unable to extract gist ID from: http1234" ∧
    extractGistId "http1234" ≠ Except.ok "http1234" := by
  refine ⟨rfl, rfl, fun h => ?_⟩
  rw [show extractGistId "http1234" =
    Except.error "Unable to extract gist ID from: http1234" from rfl] at h
  cases h

/-- C5 (amended): for an `http` URL, an ID the normalizer returns has
passed only the weak extraction checks — the segment is non-empty, does
not itself start with `gist.github.com`, and contains no dot; the full
candidate-ID validation rule is not applied to it (see the
counterexample). -/
theorem url_segment_weak_checks (input : String) (out : String)
    (hpre : "http".data.isPrefixOf (pyStrip input.data) = true)
    (hok : extractGistId input = Except.ok out) :
    out.data ≠ [] ∧ "gist.github.com".data.isPrefixOf out.data = false ∧
      '.' ∉ out.data := by
  unfold extractGistId at hok
  by_cases h1 : (input.data.isEmpty = true ∨ (pyStrip input.data).isEmpty = true)
  · rw [if_pos h1] at hok
    cases hok
  · rw [if_neg h1] at hok
    simp only [] at hok
    rw [if_neg (by simp [hpre])] at hok
    by_cases h2 : containsSub (pyStrip input.data) "gist.github.com".data = true
    · rw [if_pos h2] at hok
      by_cases h3 : 4 ≤ ((if ((pyStrip input.data).any fun c => decide (c = '#')) = true then ((pyStrip input.data).splitOn '#').headD [] else pyStrip input.data).splitOn '/').length
      · rw [if_pos h3] at hok
        generalize hE : (if (((if ((pyStrip input.data).any fun c => decide (c = '#')) = true then ((pyStrip input.data).splitOn '#').headD [] else pyStrip input.data).splitOn '/').getLastD []).isEmpty = false then ((if ((pyStrip input.data).any fun c => decide (c = '#')) = true then ((pyStrip input.data).splitOn '#').headD [] else pyStrip input.data).splitOn '/').getLastD [] else if 5 ≤ ((if ((pyStrip input.data).any fun c => decide (c = '#')) = true then ((pyStrip input.data).splitOn '#').headD [] else pyStrip input.data).splitOn '/').length then ((if ((pyStrip input.data).any fun c => decide (c = '#')) = true then ((pyStrip input.data).splitOn '#').headD [] else pyStrip input.data).splitOn '/').getD (((if ((pyStrip input.data).any fun c => decide (c = '#')) = true then ((pyStrip input.data).splitOn '#').headD [] else pyStrip input.data).splitOn '/').length - 2) [] else []) = E at hok
        by_cases h4 : (E.isEmpty = false ∧
            "gist.github.com".data.isPrefixOf E = false ∧ '.' ∉ E)
        · rw [if_pos h4] at hok
          have hout : String.mk E = out := Except.ok.inj hok
          rw [← hout]
          refine ⟨?_, h4.2.1, h4.2.2⟩
          intro he
          rw [show (String.mk E).data = E from rfl] at he
          rw [he] at h4
          exact absurd h4.1 (by simp)
        · rw [if_neg h4] at hok
          cases hok
      · rw [if_neg h3] at hok
        cases hok
    · rw [if_neg h2] at hok
      cases hok

theorem url_segment_weak_checks_witness :
    ("abcd1234" : String).data ≠ [] ∧
    "gist.github.com".data.isPrefixOf ("abcd1234" : String).data = false ∧
    '.' ∉ ("abcd1234" : String).data :=
  url_segment_weak_checks "https://gist.github.com/u/abcd1234" "abcd1234"
    (by decide) rfl

/-- C5 counterexample: the URL path segment `ab` fails the candidate-ID
validation rule (length below 8), yet the normalizer returns it instead
of failing — the validation rule is never applied to URL-extracted
segments. -/
theorem url_segment_not_validated :
    extractGistId "https://gist.github.com/user/ab" = Except.ok "ab" ∧
    isValidGistId "ab" = false :=
  ⟨rfl, rfl⟩

end Gistly